import Mathlib

/-!
# CPPNotes (src/main.cpp): shallow embedding and verification

The program is a terminal notes manager.  Strings are modelled as `List Char`
(C++ `std::string`), files as their full character contents, and the save
directory as a map from title stems to optional file contents.  Each
definition below is a direct translation of the C++ function of the same
name in `src/main.cpp`; line numbers refer to that file.
-/

namespace CPPNotes

/-- The newline character, as written by `<< "\n"` and consumed by `getline`. -/
def nl : Char := '\n'

/-- Constant `headSep` (main.cpp line 18): the separator `" | "` used in a note's header. -/
def headSep : List Char := [' ', '|', ' ']

/-- The sentinel line `"!quit"` that ends an editor session (main.cpp line 184). -/
def quitLine : List Char := ['!', 'q', 'u', 'i', 't']

/-- The reserved filename characters of `validateInput` (main.cpp line 137). -/
def invalidChars : List Char := ['<', '>', ':', '"', '/', '\\', '|', '?', '*']

/-- Convenience: the character list underlying a Lean string literal. -/
def strLit (s : String) : List Char := s.data

/-- Model of `std::string::find(pat)`: index of the first occurrence of `pat` in `s`,
`none` for `npos`. -/
def strFind : List Char → List Char → Option Nat
  | [], pat => if pat.isPrefixOf ([] : List Char) then some 0 else none
  | c :: rest, pat =>
    if pat.isPrefixOf (c :: rest) then some 0
    else (strFind rest pat).map (· + 1)

/-- The line decomposition performed by repeated `std::getline` on a stream:
each line is the text up to the next `'\n'` (which is consumed); a final
fragment without a terminating newline is still one line; the empty stream
yields no lines. -/
def getLines : List Char → List (List Char)
  | [] => []
  | c :: cs =>
    if c = nl then [] :: getLines cs
    else
      match getLines cs with
      | [] => [[c]]
      | l :: ls => (c :: l) :: ls

/-- Serialization of a list of lines, each followed by `'\n'` (the shape the
program writes bodies in: `line + "\n"` per line). -/
def joinLines (ls : List (List Char)) : List Char :=
  (ls.map (fun l => l ++ [nl])).flatten

/-- Whitespace per C's `isspace` in the default locale, which is what
`istringstream >> word` skips between tokens. -/
def isCppSpace (c : Char) : Bool :=
  c = ' ' || c = '\t' || c = '\n' || c = Char.ofNat 11 || c = Char.ofNat 12 || c = '\r'

/-- Helper for `countWords`: `inWord` records whether the previous character
was part of a token. -/
def countWordsAux : List Char → Bool → Nat
  | [], _ => 0
  | c :: cs, inWord =>
    if isCppSpace c then countWordsAux cs false
    else (if inWord then 0 else 1) + countWordsAux cs true

/-- Function `countWords` (main.cpp lines 85-95): the number of whitespace-delimited
tokens extracted by `stream >> word`. -/
def countWords (text : List Char) : Nat :=
  countWordsAux text false

/-- Function `extractArg` (main.cpp lines 103-110): everything after the first space,
`""` when there is no space. -/
def extractArg (text : List Char) : List Char :=
  match strFind text [' '] with
  | some i => text.drop (i + 1)
  | none => []

/-- Function `containsCharsFrom` (main.cpp lines 120-128): scans `text` and reports
whether any of its characters occurs in `chars`. -/
def containsCharsFrom : List Char → List Char → Bool
  | [], _ => false
  | c :: rest, chars =>
    if chars.contains c then true else containsCharsFrom rest chars

/-- Function `validateInput` (main.cpp lines 136-147): a filename is valid when it has
none of the reserved characters and its length is under 255. -/
def validateInput (input : List Char) : Bool :=
  if containsCharsFrom input invalidChars then false
  else if 255 ≤ input.length then false
  else true

/-- The `Note` class (main.cpp lines 34-57); only the stored fields matter. -/
structure Note where
  name : List Char
  timestamp : List Char
  content : List Char

/-- The read loop of `openNote` (main.cpp lines 182-186): lines are taken, each
with a trailing newline, until the first line equal to `"!quit"`; the sentinel
itself is discarded.  (When no sentinel ever arrives the C++ loop never
terminates; all theorems below supply inputs containing the sentinel.) -/
def collectInput (input : List (List Char)) : List Char :=
  joinLines (input.takeWhile (fun l => l != quitLine))

/-- Function `openNote` (main.cpp lines 170-191).  `startUserContent` is
`content.find("\n\n")`; when the separator is absent, `find` returns `npos`
and `substr(npos + 2)` wraps to `substr(1)`, which throws `std::out_of_range`
(modelled as `Except.error`) when the content is empty, and otherwise drops
one character.  The rebuilt content is
`head + userContent + newContent` with `head = name + " | " + timestamp + "\n\n"`,
and is what `saveNote` then writes verbatim. -/
def openNote (note : Note) (input : List (List Char)) : Except Unit Note :=
  match strFind note.content [nl, nl] with
  | some i =>
      Except.ok { note with
        content := note.name ++ headSep ++ note.timestamp ++ [nl, nl]
                   ++ note.content.drop (i + 2) ++ collectInput input }
  | none =>
      match note.content with
      | [] => Except.error ()
      | _ :: _ =>
          Except.ok { note with
            content := note.name ++ headSep ++ note.timestamp ++ [nl, nl]
                       ++ note.content.drop 1 ++ collectInput input }

/-- The header parsing step of `loadNote` (main.cpp lines 223-224):
`head.substr(head.find(" | ") + headSep.length())`.  When the separator is
absent, `npos + 3` wraps to `2` and `substr(2)` throws `std::out_of_range`
unless the header has length at least 2. -/
def parseTimestamp (head : List Char) : Except Unit (List Char) :=
  match strFind head headSep with
  | some i => Except.ok (head.drop (i + headSep.length))
  | none => if head.length < 2 then Except.error () else Except.ok (head.drop 2)

/-- The in-memory reconstruction performed by `loadNote` (main.cpp lines
219-234) on an openable file: the first `getline` yields the header line, the
timestamp is everything after the first `" | "` of that line, the name is the
`title` argument, and the content is rebuilt as `head + "\n" + loadedContent`,
where `loadedContent` is every remaining line re-terminated with `'\n'` in
append mode and a single `"\n"` in overwrite mode. -/
def loadNoteParse (title fileContent : List Char) (appendMode : Bool) :
    Except Unit Note :=
  match parseTimestamp ((getLines fileContent).headD []) with
  | Except.error e => Except.error e
  | Except.ok ts =>
      Except.ok { name := title, timestamp := ts,
                  content := (getLines fileContent).headD [] ++ [nl]
                             ++ (if appendMode then joinLines (getLines fileContent).tail
                                 else [nl]) }

/-- Function `loadNote` (main.cpp lines 212-241) followed by the editor session:
`fileContent` is the stored file for `title` (`none` when the file is missing
or unopenable, in which case only an error message is printed and `none` is
returned).  On success the returned note's `content` is exactly what
`saveNote` writes back to `title`'s file. -/
def loadNote (title : List Char) (fileContent : Option (List Char))
    (appendMode : Bool) (input : List (List Char)) : Except Unit (Option Note) :=
  match fileContent with
  | none => Except.ok none
  | some fc =>
      match loadNoteParse title fc appendMode with
      | Except.error e => Except.error e
      | Except.ok note =>
          match openNote note input with
          | Except.error e => Except.error e
          | Except.ok saved => Except.ok (some saved)

/-- A well-formed stored note file, as the program itself writes them:
header line `title | timestamp`, a blank line, then newline-terminated body
lines. -/
def mkFile (title ts : List Char) (body : List (List Char)) : List Char :=
  title ++ headSep ++ ts ++ [nl, nl] ++ joinLines body

/-- The save directory: a map from title stems to optional file contents. -/
def Store : Type := List Char → Option (List Char)

/-- Function `saveNote` (main.cpp lines 153-164): writes the note's content verbatim to
the file named after the note's `name`. -/
def saveNoteStore (store : Store) (note : Note) : Store :=
  fun t => if t = note.name then some note.content else store t

/-- Function `createNote` (main.cpp lines 197-205): if a file for `title` already
exists, print an error and touch nothing; otherwise seed a note whose content
is just the header block and run the editor session.  The `Bool` is `true`
when an editor session ran. -/
def createNote (store : Store) (title ts : List Char)
    (input : List (List Char)) : Store × Bool :=
  if (store title).isSome then (store, false)
  else
    match openNote { name := title, timestamp := ts,
                     content := title ++ headSep ++ ts ++ [nl, nl] } input with
    | Except.ok note => (saveNoteStore store note, true)
    | Except.error _ => (store, false)

/-- The action selected by one iteration of `promptHandler` (main.cpp lines
284-331) on one input line. -/
inductive Dispatch where
  | exitCmd
  | helpCmd
  | clsCmd
  | listCmd
  | invalidFilename (arg : List Char)
  | delCmd (arg : List Char)
  | newCmd (arg : List Char)
  | appCmd (arg : List Char)
  | owCmd (arg : List Char)
  | missingArg
  | invalidCommand (cmd : List Char)

/-- The branch cascade of `promptHandler` (main.cpp lines 289-330).
`cmd.compare(0, k, lit) == 0` with `lit` of length `k` holds exactly when
`lit` is a prefix of `cmd`, which is how the four argument commands are
recognized. -/
def dispatch (cmd : List Char) : Dispatch :=
  if cmd = strLit "exit" then Dispatch.exitCmd
  else if cmd = strLit "help" then Dispatch.helpCmd
  else if cmd = strLit "cls" then Dispatch.clsCmd
  else if cmd = strLit "list" then Dispatch.listCmd
  else if countWords cmd == 2 && !(validateInput (extractArg cmd)) then
    Dispatch.invalidFilename (extractArg cmd)
  else if (strLit "del ").isPrefixOf cmd && countWords cmd == 2 then
    Dispatch.delCmd (extractArg cmd)
  else if (strLit "new ").isPrefixOf cmd && countWords cmd == 2 then
    Dispatch.newCmd (extractArg cmd)
  else if (strLit "app ").isPrefixOf cmd && countWords cmd == 2 then
    Dispatch.appCmd (extractArg cmd)
  else if (strLit "ow ").isPrefixOf cmd && countWords cmd == 2 then
    Dispatch.owCmd (extractArg cmd)
  else if (strLit "del").isPrefixOf cmd || (strLit "new").isPrefixOf cmd
       || (strLit "app").isPrefixOf cmd || (strLit "ow").isPrefixOf cmd then
    Dispatch.missingArg
  else Dispatch.invalidCommand cmd

/-- The observable outcome of one `listNotes` call. -/
inductive ListOutcome where
  | terminated
  | dirMissingMsg
  | noFilesMsg
  | listing (stems : List (List Char))

/-- Function `listNotes` (main.cpp lines 244-263).  Line 245 constructs
`fs::directory_iterator(saveDir)` before anything else; the throwing
constructor raises `std::filesystem::filesystem_error` when `saveDir` is not
an existing directory, and no handler catches it, so the process terminates
(`ListOutcome.terminated`).  The existence check of line 247 (which would
print "ERROR: Could not find save directory.") therefore only runs when the
directory does exist.  `dirExists` states that `saveDir` exists and is a
directory; `stems` lists the entries' path stems in enumeration order. -/
def listNotes (dirExists : Bool) (stems : List (List Char)) : ListOutcome :=
  if !dirExists then ListOutcome.terminated
  else if !dirExists then ListOutcome.dirMissingMsg
  else if stems = [] then ListOutcome.noFilesMsg
  else ListOutcome.listing stems

/-! ## Basic lemmas about the embedded string operations -/

theorem joinLines_nil : joinLines [] = [] := rfl

theorem joinLines_cons (l : List Char) (ls : List (List Char)) :
    joinLines (l :: ls) = l ++ nl :: joinLines ls := by
  simp [joinLines]

theorem getLines_nl_cons (rest : List Char) :
    getLines (nl :: rest) = [] :: getLines rest := by
  simp [getLines]

/-- Lemma: `getLines` splits off a newline-free first line. -/
theorem getLines_append (a rest : List Char) (h : nl ∉ a) :
    getLines (a ++ nl :: rest) = a :: getLines rest := by
  induction a with
  | nil => simpa using getLines_nl_cons rest
  | cons c a ih =>
      have hc : ¬ c = nl := fun hc => h (hc ▸ List.mem_cons_self c a)
      have ha : nl ∉ a := fun hm => h (List.mem_cons_of_mem c hm)
      simp only [List.cons_append, getLines, if_neg hc, List.append_eq, ih ha]

/-- Re-reading the program's newline-terminated body lines recovers them. -/
theorem getLines_joinLines (ls : List (List Char)) (h : ∀ l ∈ ls, nl ∉ l) :
    getLines (joinLines ls) = ls := by
  induction ls with
  | nil => rfl
  | cons l ls ih =>
      rw [joinLines_cons, getLines_append l _ (h l (List.mem_cons_self l ls))]
      rw [ih (fun x hx => h x (List.mem_cons_of_mem l hx))]

/-- Lemma: `getLines` on a full well-formed file: header line, blank line, body. -/
theorem getLines_header (a rest : List Char) (h : nl ∉ a) :
    getLines (a ++ [nl, nl] ++ rest) = a :: [] :: getLines rest := by
  have : a ++ [nl, nl] ++ rest = a ++ nl :: nl :: rest := by simp
  rw [this, getLines_append a _ h, getLines_nl_cons]

theorem strFind_cons_of_ne (c : Char) (rest pat : List Char)
    (h : pat.isPrefixOf (c :: rest) = false) :
    strFind (c :: rest) pat = (strFind rest pat).map (· + 1) := by
  simp [strFind, h]

/-- Searching for `"\n\n"` in `headline ++ "\n\n" ++ rest` with a
newline-free headline finds exactly the boundary. -/
theorem strFind_nlnl (a rest : List Char) (h : nl ∉ a) :
    strFind (a ++ nl :: nl :: rest) [nl, nl] = some a.length := by
  induction a with
  | nil => simp [strFind, List.isPrefixOf]
  | cons c a ih =>
      have hc : ¬ c = nl := fun hc => h (hc ▸ List.mem_cons_self c a)
      have ha : nl ∉ a := fun hm => h (List.mem_cons_of_mem c hm)
      have hpre : ([nl, nl] : List Char).isPrefixOf (c :: (a ++ nl :: nl :: rest)) = false := by
        simp [List.isPrefixOf]
        intro heq
        exact absurd heq.symm hc
      rw [List.cons_append, strFind_cons_of_ne _ _ _ hpre, ih ha]
      rfl

/-- Searching for `" | "` in `title ++ " | " ++ rest` finds the separator
right after the title, provided the title has no `'|'` (which
`validateInput` guarantees for every title the dispatcher lets through). -/
theorem strFind_headSep (t rest : List Char) (h : '|' ∉ t) :
    strFind (t ++ headSep ++ rest) headSep = some t.length := by
  induction t with
  | nil => simp [strFind, headSep, List.isPrefixOf]
  | cons c t ih =>
      have ht : '|' ∉ t := fun hm => h (List.mem_cons_of_mem c hm)
      have hpre : headSep.isPrefixOf (c :: (t ++ headSep ++ rest)) = false := by
        cases t with
        | nil => simp [headSep, List.isPrefixOf]
        | cons d t' =>
            have hd : ¬ d = '|' := fun hd =>
              h (hd ▸ List.mem_cons_of_mem c (List.mem_cons_self d t'))
            simp [headSep, List.isPrefixOf]
            intro _ hdeq
            exact absurd hdeq.symm hd
      have hstep : strFind ((c :: t) ++ headSep ++ rest) headSep
          = (strFind (t ++ headSep ++ rest) headSep).map (· + 1) := by
        rw [show (c :: t) ++ headSep ++ rest = c :: (t ++ headSep ++ rest) by simp]
        exact strFind_cons_of_ne _ _ _ hpre
      rw [hstep, ih ht]
      rfl

/-- Dropping the length of a left factor plus `k` drops into the right factor. -/
theorem drop_append_length (a b : List Char) (k : Nat) :
    (a ++ b).drop (a.length + k) = b.drop k := by
  rw [List.drop_append]

/-- The editor loop stores exactly the lines before the first sentinel, each
with a trailing newline; the sentinel and everything after it are dropped. -/
theorem collectInput_append_quit (xs rest : List (List Char))
    (h : ∀ l ∈ xs, l ≠ quitLine) :
    collectInput (xs ++ quitLine :: rest) = joinLines xs := by
  induction xs with
  | nil => simp [collectInput, joinLines, List.takeWhile]
  | cons x xs ih =>
      have hx : (x != quitLine) = true := by
        simpa using h x (List.mem_cons_self x xs)
      have hxs : ∀ l ∈ xs, l ≠ quitLine := fun l hl => h l (List.mem_cons_of_mem x hl)
      simp only [collectInput, List.cons_append, List.takeWhile_cons, hx, if_true]
      rw [joinLines_cons]
      have := ih hxs
      simp only [collectInput] at this
      rw [this, joinLines_cons]

/-- No newline occurs in a well-formed header line built from newline-free
name and timestamp. -/
theorem nl_not_mem_headline (t ts : List Char) (h1 : nl ∉ t) (h2 : nl ∉ ts) :
    nl ∉ t ++ headSep ++ ts := by
  intro hm
  rcases List.mem_append.mp hm with hm' | hm'
  · rcases List.mem_append.mp hm' with hm'' | hm''
    · exact h1 hm''
    · simp [headSep, nl] at hm''
  · exact h2 hm'

/-! ## Pipeline lemmas: parsing and editing well-formed files -/

/-- Lemma: `getLines` on a well-formed note file. -/
theorem getLines_mkFile (title ts : List Char) (body : List (List Char))
    (htn : nl ∉ title) (hts : nl ∉ ts) (hb : ∀ l ∈ body, nl ∉ l) :
    getLines (mkFile title ts body) = (title ++ headSep ++ ts) :: [] :: body := by
  simp only [mkFile]
  rw [getLines_header _ _ (nl_not_mem_headline title ts htn hts)]
  rw [getLines_joinLines body hb]

/-- Lemma: `parseTimestamp` on a well-formed header line recovers the timestamp. -/
theorem parseTimestamp_headline (title ts : List Char) (htp : '|' ∉ title) :
    parseTimestamp (title ++ headSep ++ ts) = Except.ok ts := by
  unfold parseTimestamp
  rw [strFind_headSep title ts htp]
  have hdrop : (title ++ headSep ++ ts).drop (title.length + headSep.length) = ts := by
    rw [show title ++ headSep ++ ts = title ++ (headSep ++ ts) by simp]
    rw [drop_append_length, List.drop_left]
  simp only [hdrop]

/-- Lemma: `loadNoteParse` in append mode reconstructs a well-formed file verbatim. -/
theorem loadNoteParse_mkFile_append (title ts : List Char) (body : List (List Char))
    (htn : nl ∉ title) (htp : '|' ∉ title) (hts : nl ∉ ts)
    (hb : ∀ l ∈ body, nl ∉ l) :
    loadNoteParse title (mkFile title ts body) true
      = Except.ok { name := title, timestamp := ts, content := mkFile title ts body } := by
  unfold loadNoteParse
  rw [getLines_mkFile title ts body htn hts hb]
  simp only [List.headD_cons, List.tail_cons]
  rw [parseTimestamp_headline title ts htp]
  simp only [if_true]
  congr 1
  simp [mkFile, joinLines_cons]

/-- Lemma: `loadNoteParse` in overwrite mode keeps only the header of a well-formed
file, replacing the stored body by a single blank line. -/
theorem loadNoteParse_mkFile_ow (title ts : List Char) (body : List (List Char))
    (htn : nl ∉ title) (htp : '|' ∉ title) (hts : nl ∉ ts)
    (hb : ∀ l ∈ body, nl ∉ l) :
    loadNoteParse title (mkFile title ts body) false
      = Except.ok { name := title, timestamp := ts,
                    content := title ++ headSep ++ ts ++ [nl, nl] } := by
  unfold loadNoteParse
  rw [getLines_mkFile title ts body htn hts hb]
  simp only [List.headD_cons, List.tail_cons]
  rw [parseTimestamp_headline title ts htp]
  simp only [if_false]
  congr 1
  simp

/-- Lemma: `openNote` on a note whose content is a header block followed by user
content: the saved content is the rebuilt header, the user content, then the
typed lines. -/
theorem openNote_wellFormed (name ts hl rest : List Char) (input : List (List Char))
    (hhl : nl ∉ hl) :
    openNote { name := name, timestamp := ts, content := hl ++ [nl, nl] ++ rest } input
      = Except.ok { name := name, timestamp := ts,
                    content := name ++ headSep ++ ts ++ [nl, nl]
                               ++ rest ++ collectInput input } := by
  have hfind : strFind (hl ++ [nl, nl] ++ rest) [nl, nl] = some hl.length := by
    rw [show hl ++ [nl, nl] ++ rest = hl ++ nl :: nl :: rest by simp]
    exact strFind_nlnl hl rest hhl
  have hdrop : (hl ++ [nl, nl] ++ rest).drop (hl.length + 2) = rest := by
    rw [show hl ++ [nl, nl] ++ rest = hl ++ ([nl, nl] ++ rest) by simp]
    rw [drop_append_length]
    rfl
  unfold openNote
  rw [hfind]
  simp only [hdrop]

/-- Lemma: `openNote` when the content is exactly a header block with empty user
content (the overwrite-mode and fresh-creation shape). -/
theorem openNote_header_only (name ts hl : List Char) (input : List (List Char))
    (hhl : nl ∉ hl) :
    openNote { name := name, timestamp := ts, content := hl ++ [nl, nl] } input
      = Except.ok { name := name, timestamp := ts,
                    content := name ++ headSep ++ ts ++ [nl, nl] ++ collectInput input } := by
  have hfind : strFind (hl ++ [nl, nl]) [nl, nl] = some hl.length := strFind_nlnl hl [] hhl
  have hdrop : (hl ++ [nl, nl]).drop (hl.length + 2) = [] := by
    rw [drop_append_length]
    rfl
  unfold openNote
  rw [hfind]
  simp only [hdrop]
  simp

/-- The `app`/`ow` command at store level: look the file up, run `loadNote`
plus the editor session, and let `saveNote` write the result back. -/
def runLoad (store : Store) (title : List Char) (appendMode : Bool)
    (input : List (List Char)) : Except Unit Store :=
  match loadNote title (store title) appendMode input with
  | Except.error e => Except.error e
  | Except.ok none => Except.ok store
  | Except.ok (some saved) => Except.ok (saveNoteStore store saved)

/-- Full append pipeline on a well-formed file. -/
theorem loadNote_append_mkFile (title ts : List Char) (body xs : List (List Char))
    (htn : nl ∉ title) (htp : '|' ∉ title) (hts : nl ∉ ts)
    (hb : ∀ l ∈ body, nl ∉ l) (hx : ∀ l ∈ xs, l ≠ quitLine) :
    loadNote title (some (mkFile title ts body)) true (xs ++ [quitLine])
      = Except.ok (some { name := title, timestamp := ts,
                          content := mkFile title ts body ++ joinLines xs }) := by
  have hopen : openNote { name := title, timestamp := ts, content := mkFile title ts body }
      (xs ++ [quitLine])
      = Except.ok { name := title, timestamp := ts,
                    content := title ++ headSep ++ ts ++ [nl, nl]
                               ++ joinLines body ++ collectInput (xs ++ [quitLine]) } :=
    openNote_wellFormed title ts (title ++ headSep ++ ts) (joinLines body)
      (xs ++ [quitLine]) (nl_not_mem_headline title ts htn hts)
  simp only [loadNote, loadNoteParse_mkFile_append title ts body htn htp hts hb,
    hopen, collectInput_append_quit xs [] hx]
  simp only [mkFile]

/-- Full overwrite pipeline on a well-formed file. -/
theorem loadNote_ow_mkFile (title ts : List Char) (body ys : List (List Char))
    (htn : nl ∉ title) (htp : '|' ∉ title) (hts : nl ∉ ts)
    (hb : ∀ l ∈ body, nl ∉ l) (hy : ∀ l ∈ ys, l ≠ quitLine) :
    loadNote title (some (mkFile title ts body)) false (ys ++ [quitLine])
      = Except.ok (some { name := title, timestamp := ts,
                          content := mkFile title ts ys }) := by
  have hopen : openNote { name := title, timestamp := ts,
                          content := title ++ headSep ++ ts ++ [nl, nl] }
        (ys ++ [quitLine])
      = Except.ok { name := title, timestamp := ts,
                    content := title ++ headSep ++ ts ++ [nl, nl]
                               ++ collectInput (ys ++ [quitLine]) } :=
    openNote_header_only title ts (title ++ headSep ++ ts) (ys ++ [quitLine])
      (nl_not_mem_headline title ts htn hts)
  simp only [loadNote, loadNoteParse_mkFile_ow title ts body htn htp hts hb,
    hopen, collectInput_append_quit ys [] hy]
  simp only [mkFile]

/-! ## Validation and dispatcher lemmas -/

/-- Lemma: `containsCharsFrom` holds exactly when some character of `text` is in
`chars`. -/
theorem containsCharsFrom_iff (t chars : List Char) :
    containsCharsFrom t chars = true ↔ ∃ c ∈ t, c ∈ chars := by
  induction t with
  | nil => simp [containsCharsFrom]
  | cons c rest ih =>
      by_cases hc : chars.contains c = true
      · simp only [containsCharsFrom, if_pos hc]
        constructor
        · intro _
          exact ⟨c, List.mem_cons_self c rest, List.elem_iff.mp hc⟩
        · intro _
          trivial
      · simp only [containsCharsFrom, if_neg hc, ih]
        constructor
        · rintro ⟨x, hx, hxc⟩
          exact ⟨x, List.mem_cons_of_mem c hx, hxc⟩
        · rintro ⟨x, hx, hxc⟩
          rcases List.mem_cons.mp hx with rfl | hx'
          · exact absurd (List.elem_iff.mpr hxc) hc
          · exact ⟨x, hx', hxc⟩

/-- Lemma: `validateInput` rejects exactly the reserved-character or overlong titles. -/
theorem validateInput_false_iff (s : List Char) :
    validateInput s = false ↔ (∃ c ∈ s, c ∈ invalidChars) ∨ 255 ≤ s.length := by
  constructor
  · intro hfalse
    by_cases h1 : containsCharsFrom s invalidChars = true
    · exact Or.inl ((containsCharsFrom_iff s invalidChars).mp h1)
    · right
      by_contra h2
      rw [Bool.not_eq_true] at h1
      simp [validateInput, h1, h2] at hfalse
  · intro h
    rcases h with h | h
    · have h1 := (containsCharsFrom_iff s invalidChars).mpr h
      simp [validateInput, h1]
    · by_cases h1 : containsCharsFrom s invalidChars = true
      · simp [validateInput, h1]
      · rw [Bool.not_eq_true] at h1
        simp [validateInput, h1, h]

/-- With a two-word command line whose argument fails validation, the
dispatcher stops at the invalid-filename branch. -/
theorem dispatch_invalid_filename (cmd : List Char) (h2 : countWords cmd = 2)
    (hv : validateInput (extractArg cmd) = false) :
    dispatch cmd = Dispatch.invalidFilename (extractArg cmd) := by
  have he : ¬ cmd = strLit "exit" := fun h => by
    subst h; exact absurd h2 (by decide)
  have hh : ¬ cmd = strLit "help" := fun h => by
    subst h; exact absurd h2 (by decide)
  have hc : ¬ cmd = strLit "cls" := fun h => by
    subst h; exact absurd h2 (by decide)
  have hl : ¬ cmd = strLit "list" := fun h => by
    subst h; exact absurd h2 (by decide)
  have hcond : (countWords cmd == 2 && !(validateInput (extractArg cmd))) = true := by
    rw [hv, h2]
    rfl
  unfold dispatch
  rw [if_neg he, if_neg hh, if_neg hc, if_neg hl, if_pos hcond]

/-- A prefix of a prefix: dropping the trailing part of the pattern keeps it
a prefix (`"new "` is a prefix of `cmd`, hence so is `"new"`). -/
theorem isPrefixOf_append_left (a b l : List Char)
    (h : (a ++ b).isPrefixOf l = true) : a.isPrefixOf l = true := by
  rw [List.isPrefixOf_iff_prefix] at h ⊢
  exact (List.prefix_append a b).trans h

/-- A command line recognized by one of the four argument-command prefixes
but with three or more words falls through to the missing-argument branch. -/
theorem dispatch_three_words (cmd : List Char)
    (hp : (strLit "new ").isPrefixOf cmd = true ∨ (strLit "app ").isPrefixOf cmd = true
        ∨ (strLit "ow ").isPrefixOf cmd = true ∨ (strLit "del ").isPrefixOf cmd = true)
    (hw : 3 ≤ countWords cmd) :
    dispatch cmd = Dispatch.missingArg := by
  have hne : ∀ lit : List Char,
      ((strLit "new ").isPrefixOf lit = false) → ((strLit "app ").isPrefixOf lit = false)
      → ((strLit "ow ").isPrefixOf lit = false) → ((strLit "del ").isPrefixOf lit = false)
      → ¬ cmd = lit := by
    intro lit e1 e2 e3 e4 hcmd
    subst hcmd
    rcases hp with h | h | h | h
    · rw [h] at e1; exact Bool.true_eq_false ▸ (e1 ▸ rfl)
    · rw [h] at e2; exact Bool.true_eq_false ▸ (e2 ▸ rfl)
    · rw [h] at e3; exact Bool.true_eq_false ▸ (e3 ▸ rfl)
    · rw [h] at e4; exact Bool.true_eq_false ▸ (e4 ▸ rfl)
  have he : ¬ cmd = strLit "exit" := hne _ (by decide) (by decide) (by decide) (by decide)
  have hh : ¬ cmd = strLit "help" := hne _ (by decide) (by decide) (by decide) (by decide)
  have hc : ¬ cmd = strLit "cls" := hne _ (by decide) (by decide) (by decide) (by decide)
  have hli : ¬ cmd = strLit "list" := hne _ (by decide) (by decide) (by decide) (by decide)
  have h2f : (countWords cmd == 2) = false := by
    have : countWords cmd ≠ 2 := by omega
    simpa using this
  have hfinal : ((strLit "del").isPrefixOf cmd || (strLit "new").isPrefixOf cmd
      || (strLit "app").isPrefixOf cmd || (strLit "ow").isPrefixOf cmd) = true := by
    rcases hp with h | h | h | h
    · have := isPrefixOf_append_left (strLit "new") [' '] cmd (by simpa using h)
      simp [this]
    · have := isPrefixOf_append_left (strLit "app") [' '] cmd (by simpa using h)
      simp [this]
    · have := isPrefixOf_append_left (strLit "ow") [' '] cmd (by simpa using h)
      simp [this]
    · have := isPrefixOf_append_left (strLit "del") [' '] cmd (by simpa using h)
      simp [this]
  unfold dispatch
  rw [if_neg he, if_neg hh, if_neg hc, if_neg hli]
  simp only [h2f, Bool.and_false, Bool.false_and]
  rw [if_pos hfinal]
  simp

/-! ## The format invariant of every file the program writes -/

/-- Whatever note `openNote` was handed, any file it saves starts with the
rebuilt header line `name | timestamp` followed by a blank line.  `saveNote`
is called from `openNote` only, and `createNote`, `loadNote` both funnel into
`openNote`, so this covers every file write the program performs. -/
theorem openNote_header_format (note : Note) (input : List (List Char)) (saved : Note)
    (hok : openNote note input = Except.ok saved)
    (hn : nl ∉ note.name) (ht : nl ∉ note.timestamp) :
    ((note.name ++ headSep ++ note.timestamp) ++ [nl, nl]) <+: saved.content
    ∧ (getLines saved.content).headD [nl] = note.name ++ headSep ++ note.timestamp
    ∧ ((getLines saved.content).drop 1).headD [nl] = [] := by
  have hcontent : ∃ rest, saved.content
      = (note.name ++ headSep ++ note.timestamp) ++ [nl, nl] ++ rest := by
    unfold openNote at hok
    cases hfind : strFind note.content [nl, nl] with
    | some i =>
        rw [hfind] at hok
        simp only [Except.ok.injEq] at hok
        exact ⟨note.content.drop (i + 2) ++ collectInput input, by
          rw [← hok]; simp [List.append_assoc]⟩
    | none =>
        rw [hfind] at hok
        cases hcc : note.content with
        | nil => rw [hcc] at hok; exact absurd hok (by simp)
        | cons c cs =>
            rw [hcc] at hok
            simp only [Except.ok.injEq] at hok
            exact ⟨(c :: cs).drop 1 ++ collectInput input, by
              rw [← hok]; simp [List.append_assoc]⟩
  obtain ⟨rest, hcont⟩ := hcontent
  have hlines : getLines saved.content
      = (note.name ++ headSep ++ note.timestamp) :: [] :: getLines rest := by
    rw [hcont]
    exact getLines_header _ _ (nl_not_mem_headline _ _ hn ht)
  refine ⟨⟨rest, hcont.symm⟩, ?_, ?_⟩
  · rw [hlines]; rfl
  · rw [hlines]; rfl

/-! ## The claims -/

/-- A one-note store used to instantiate the store-level theorems. -/
def demoStoreA : Store :=
  fun t =>
    if t = strLit "a" then some (mkFile (strLit "a") (strLit "t") [strLit "b"])
    else none

/-- C1: for every existing note file with a well-formed header
(`title | ts`, blank line, newline-terminated body lines), running
`app <title>` and typing the lines `xs` then the sentinel `!quit` stores
back content equal to the prior stored content followed by the typed lines,
each with its trailing newline; the header — including the stored
timestamp `ts` — is unchanged. -/
theorem claim1_append_preserves_content_and_timestamp (store : Store)
    (title ts : List Char) (body xs : List (List Char))
    (hstore : store title = some (mkFile title ts body))
    (htn : nl ∉ title) (htp : '|' ∉ title) (hts : nl ∉ ts)
    (hb : ∀ l ∈ body, nl ∉ l) (hx : ∀ l ∈ xs, l ≠ quitLine) :
    runLoad store title true (xs ++ [quitLine])
      = Except.ok (saveNoteStore store
          { name := title, timestamp := ts,
            content := mkFile title ts body ++ joinLines xs })
    ∧ (saveNoteStore store
        { name := title, timestamp := ts,
          content := mkFile title ts body ++ joinLines xs }) title
      = some (mkFile title ts body ++ joinLines xs) := by
  constructor
  · unfold runLoad
    rw [hstore, loadNote_append_mkFile title ts body xs htn htp hts hb hx]
  · simp [saveNoteStore]

theorem claim1_witness :
    runLoad demoStoreA (strLit "a") true ([strLit "x"] ++ [quitLine])
      = Except.ok (saveNoteStore demoStoreA
          { name := strLit "a", timestamp := strLit "t",
            content := mkFile (strLit "a") (strLit "t") [strLit "b"]
                       ++ joinLines [strLit "x"] })
    ∧ (saveNoteStore demoStoreA
        { name := strLit "a", timestamp := strLit "t",
          content := mkFile (strLit "a") (strLit "t") [strLit "b"]
                     ++ joinLines [strLit "x"] }) (strLit "a")
      = some (mkFile (strLit "a") (strLit "t") [strLit "b"] ++ joinLines [strLit "x"]) :=
  claim1_append_preserves_content_and_timestamp demoStoreA
    (strLit "a") (strLit "t") [strLit "b"] [strLit "x"]
    rfl (by decide) (by decide) (by decide) (by decide) (by decide)

/-- C2: for every existing note file with a well-formed header, running
`ow <title>` and typing the lines `ys` then `!quit` stores back a file whose
body is exactly the typed lines (the prior body is discarded) under the
unchanged header line with the original timestamp `ts`. -/
theorem claim2_overwrite_discards_body_keeps_header (store : Store)
    (title ts : List Char) (body ys : List (List Char))
    (hstore : store title = some (mkFile title ts body))
    (htn : nl ∉ title) (htp : '|' ∉ title) (hts : nl ∉ ts)
    (hb : ∀ l ∈ body, nl ∉ l) (hy : ∀ l ∈ ys, l ≠ quitLine) :
    runLoad store title false (ys ++ [quitLine])
      = Except.ok (saveNoteStore store
          { name := title, timestamp := ts, content := mkFile title ts ys })
    ∧ (saveNoteStore store
        { name := title, timestamp := ts, content := mkFile title ts ys }) title
      = some (mkFile title ts ys) := by
  constructor
  · unfold runLoad
    rw [hstore, loadNote_ow_mkFile title ts body ys htn htp hts hb hy]
  · simp [saveNoteStore]

theorem claim2_witness :
    runLoad demoStoreA (strLit "a") false ([strLit "y"] ++ [quitLine])
      = Except.ok (saveNoteStore demoStoreA
          { name := strLit "a", timestamp := strLit "t",
            content := mkFile (strLit "a") (strLit "t") [strLit "y"] })
    ∧ (saveNoteStore demoStoreA
        { name := strLit "a", timestamp := strLit "t",
          content := mkFile (strLit "a") (strLit "t") [strLit "y"] }) (strLit "a")
      = some (mkFile (strLit "a") (strLit "t") [strLit "y"]) :=
  claim2_overwrite_discards_body_keeps_header demoStoreA
    (strLit "a") (strLit "t") [strLit "b"] [strLit "y"]
    rfl (by decide) (by decide) (by decide) (by decide) (by decide)

/-- C3: round-trip — loading (in append mode) a file that `saveNote` wrote
(header line, blank line, newline-terminated body lines) reconstructs a
`Note` whose name, timestamp and content (hence the concatenated body
lines) equal the saved values exactly. -/
theorem claim3_save_load_roundtrip (title ts : List Char) (body : List (List Char))
    (htn : nl ∉ title) (htp : '|' ∉ title) (hts : nl ∉ ts)
    (hb : ∀ l ∈ body, nl ∉ l) :
    loadNoteParse title (mkFile title ts body) true
      = Except.ok { name := title, timestamp := ts, content := mkFile title ts body } :=
  loadNoteParse_mkFile_append title ts body htn htp hts hb

theorem claim3_witness :
    loadNoteParse (strLit "a") (mkFile (strLit "a") (strLit "t") [strLit "b"]) true
      = Except.ok { name := strLit "a", timestamp := strLit "t",
                    content := mkFile (strLit "a") (strLit "t") [strLit "b"] } :=
  claim3_save_load_roundtrip (strLit "a") (strLit "t") [strLit "b"]
    (by decide) (by decide) (by decide) (by decide)

/-- C4 (refuting the claim as stated): when the save directory is missing,
`listNotes` does not reach its distinct error message — the
`fs::directory_iterator` constructed on line 245 throws before the existence
check of line 247, and the uncaught exception terminates the process. -/
theorem claim4_list_missing_dir_terminates (stems : List (List Char)) :
    listNotes false stems = ListOutcome.terminated := rfl

/-- C5: `createNote` on a title whose file already exists reports the error
and leaves the whole store untouched — no file is modified or created. -/
theorem claim5_create_existing_untouched (store : Store) (title ts : List Char)
    (input : List (List Char)) (h : (store title).isSome = true) :
    createNote store title ts input = (store, false) := by
  unfold createNote
  rw [if_pos h]

theorem claim5_witness :
    createNote demoStoreA (strLit "a") (strLit "t") [quitLine] = (demoStoreA, false) :=
  claim5_create_existing_untouched demoStoreA (strLit "a") (strLit "t") [quitLine]
    (by decide)

/-- C6: `validateInput` rejects exactly the titles containing a reserved
character or of length at least 255, and for any two-word command line whose
argument fails validation the dispatcher reports the invalid-filename error
and invokes no note operation. -/
theorem claim6_validate_exact_and_dispatch_refuses (s cmd : List Char)
    (h2 : countWords cmd = 2) (hv : validateInput (extractArg cmd) = false) :
    (validateInput s = false ↔ (∃ c ∈ s, c ∈ invalidChars) ∨ 255 ≤ s.length)
    ∧ dispatch cmd = Dispatch.invalidFilename (extractArg cmd) :=
  ⟨validateInput_false_iff s, dispatch_invalid_filename cmd h2 hv⟩

theorem claim6_witness :
    (validateInput (strLit "a<b") = false
      ↔ (∃ c ∈ strLit "a<b", c ∈ invalidChars) ∨ 255 ≤ (strLit "a<b").length)
    ∧ dispatch (strLit "app a<b")
      = Dispatch.invalidFilename (extractArg (strLit "app a<b")) :=
  claim6_validate_exact_and_dispatch_refuses (strLit "a<b") (strLit "app a<b")
    (by decide) (by decide)

/-- C7 counterexample: `loadNote` does NOT take the note's name from the
stored header.  On the file `"b | t\n\n"` loaded under the title `"a"`, the
reconstructed note's name is the supplied title `"a"`, although the name
field of the stored header (the text before `" | "`) is `"b"`. -/
theorem claim7_counterexample :
    loadNoteParse (strLit "a") (strLit "b | t\n\n") true
      = Except.ok { name := strLit "a", timestamp := strLit "t",
                    content := strLit "b | t\n\n" }
    ∧ (strLit "b | t\n\n").takeWhile (fun c => c != ' ') = strLit "b"
    ∧ strLit "a" ≠ strLit "b" :=
  ⟨rfl, by decide, by decide⟩

/-- C7 amended: for every note file `loadNote` successfully opens whose
header line contains `" | "`, the reconstructed note's timestamp is the text
of the stored header after the first `" | "`, while its name is the title
argument supplied to the command. -/
theorem claim7_amended_name_from_title_timestamp_from_header
    (title fileContent : List Char) (appendMode : Bool) (i : Nat)
    (hsep : strFind ((getLines fileContent).headD []) headSep = some i) :
    Except.map (fun n => (n.name, n.timestamp))
        (loadNoteParse title fileContent appendMode)
      = Except.ok (title, ((getLines fileContent).headD []).drop (i + headSep.length)) := by
  unfold loadNoteParse parseTimestamp
  rw [hsep]
  rfl

theorem claim7_amended_witness :
    Except.map (fun n => (n.name, n.timestamp))
        (loadNoteParse (strLit "z") (strLit "b | t\n\n") true)
      = Except.ok (strLit "z",
          ((getLines (strLit "b | t\n\n")).headD []).drop (1 + headSep.length)) :=
  claim7_amended_name_from_title_timestamp_from_header
    (strLit "z") (strLit "b | t\n\n") true 1 (by decide)

/-- C8: every file the program writes goes through `openNote` (the only
caller of `saveNote`; `createNote` and `loadNote` both funnel into it), and
whatever note `openNote` was handed, the saved content begins with the
header line `name | timestamp` followed by a blank line, then body text
(possibly empty). -/
theorem claim8_saved_file_header_format (note : Note) (input : List (List Char))
    (saved : Note) (hok : openNote note input = Except.ok saved)
    (hn : nl ∉ note.name) (ht : nl ∉ note.timestamp) :
    ((note.name ++ headSep ++ note.timestamp) ++ [nl, nl]) <+: saved.content
    ∧ (getLines saved.content).headD [nl] = note.name ++ headSep ++ note.timestamp
    ∧ ((getLines saved.content).drop 1).headD [nl] = [] :=
  openNote_header_format note input saved hok hn ht

theorem claim8_witness :
    ((strLit "n" ++ headSep ++ strLit "t") ++ [nl, nl]) <+: strLit "n | t\n\nold\n"
    ∧ (getLines (strLit "n | t\n\nold\n")).headD [nl] = strLit "n" ++ headSep ++ strLit "t"
    ∧ ((getLines (strLit "n | t\n\nold\n")).drop 1).headD [nl] = [] :=
  claim8_saved_file_header_format
    { name := strLit "n", timestamp := strLit "t", content := strLit "n | t\n\nold\n" }
    [quitLine]
    { name := strLit "n", timestamp := strLit "t", content := strLit "n | t\n\nold\n" }
    rfl (by decide) (by decide)

/-- C9: the editor session stores each typed line verbatim with a trailing
newline and stops exactly at the first line equal character-for-character to
`!quit`; the sentinel itself and anything after it are not stored.  Lines
merely resembling the sentinel (such as `"!quit "`) are stored like any
other. -/
theorem claim9_editor_reads_until_sentinel (xs rest : List (List Char))
    (h : ∀ l ∈ xs, l ≠ quitLine) :
    collectInput (xs ++ quitLine :: rest) = joinLines xs :=
  collectInput_append_quit xs rest h

theorem claim9_witness :
    collectInput ([strLit "!quit "] ++ quitLine :: [strLit "z"])
      = joinLines [strLit "!quit "] :=
  claim9_editor_reads_until_sentinel [strLit "!quit "] [strLit "z"] (by decide)

/-- C10 counterexample: the input line `"new a "` starts with `"new "` and
its supplied argument `"a "` contains a space, yet it has only two
space-delimited words, so the dispatcher DOES invoke the create operation
with the space-containing title `"a "` — refuting the claim that no note
whose title contains a space can ever be created. -/
theorem claim10_counterexample :
    dispatch (strLit "new a ") = Dispatch.newCmd (strLit "a ")
    ∧ ' ' ∈ strLit "a " :=
  ⟨rfl, by decide⟩

/-- C10 amended: every input line starting with `new `, `app `, `ow ` or
`del ` that has three or more space-delimited words is answered with the
missing-argument error and invokes no note operation; however, a title
containing a space can still reach a note operation through a two-word
line, e.g. `new a ` invokes create with the title `"a "`. -/
theorem claim10_amended_three_words_missing_arg (cmd : List Char)
    (hp : (strLit "new ").isPrefixOf cmd = true ∨ (strLit "app ").isPrefixOf cmd = true
        ∨ (strLit "ow ").isPrefixOf cmd = true ∨ (strLit "del ").isPrefixOf cmd = true)
    (hw : 3 ≤ countWords cmd) :
    dispatch cmd = Dispatch.missingArg
    ∧ dispatch (strLit "new a ") = Dispatch.newCmd (strLit "a ") :=
  ⟨dispatch_three_words cmd hp hw, rfl⟩

theorem claim10_witness :
    dispatch (strLit "app x y") = Dispatch.missingArg
    ∧ dispatch (strLit "new a ") = Dispatch.newCmd (strLit "a ") :=
  claim10_amended_three_words_missing_arg (strLit "app x y")
    (Or.inr (Or.inl (by decide))) (by decide)

end CPPNotes
